import Mathlib

namespace GFormFiller

/-! Shallow embedding of gformfiller's DSL matching engine
    (infrastructure/dsl: tokens.py, lexer.py, parser.py, evaluator.py,
    __init__.py).  Python strings are modelled as lists of characters. -/

/-- Token kinds produced by the lexer (tokens.py `TokenType`); the position
and length fields of `Token` are omitted because the parser inspects only
the kind and the value.  `ESCAPED_WORD` and `WHITESPACE` are never produced
by `Lexer.tokenize`, so they are not modelled. -/
inductive Tok where
  | word (v : List Char)
  | quoted (v : List Char)
  | and
  | or
  | not
  | before
  | lparen
  | rparen
  | eof
deriving DecidableEq

/-- Python `str.isspace` restricted to the ASCII whitespace characters. -/
def pyIsSpace (c : Char) : Bool :=
  c = ' ' || c = '\t' || c = '\n' || c = '\r' || c = '\x0b' || c = '\x0c'

/-- The unescaped special characters `&|~<()` at which `Lexer.read_word`
stops. -/
def isSpecialChar (c : Char) : Bool :=
  c = '&' || c = '|' || c = '~' || c = '<' || c = '(' || c = ')'

/-- `Lexer.read_word`: reads a word handling backslash escapes; stops at an
unescaped special character or whitespace; fails on a trailing backslash or
on an empty result.  Returns the word and the unconsumed input. -/
def readWordAux : List Char → List Char → Option (List Char × List Char)
  | [], acc => if acc.isEmpty then none else some (acc.reverse, [])
  | '\\' :: rest, acc =>
    match rest with
    | [] => none
    | c :: rest2 => readWordAux rest2 (c :: acc)
  | c :: rest, acc =>
    if isSpecialChar c || pyIsSpace c then
      if acc.isEmpty then none else some (acc.reverse, c :: rest)
    else
      readWordAux rest (c :: acc)

/-- The escape translation inside `Lexer.read_quoted_string`. -/
def quotedEscape (q c : Char) : Char :=
  if c = 'n' then '\n'
  else if c = 't' then '\t'
  else if c = '\\' then '\\'
  else if c = q then q
  else c

/-- `Lexer.read_quoted_string` after the opening quote has been consumed:
reads until the matching unescaped closing quote; fails (unterminated
string) if the input ends first. -/
def readQuotedAux (q : Char) : List Char → List Char → Option (List Char × List Char)
  | [], _ => none
  | '\\' :: rest, acc =>
    match rest with
    | [] => none
    | c :: rest2 => readQuotedAux q rest2 (quotedEscape q c :: acc)
  | c :: rest, acc =>
    if c = q then some (acc.reverse, rest) else readQuotedAux q rest (c :: acc)

/-- `Lexer.tokenize` with a fuel parameter bounding the number of loop
iterations.  Each iteration consumes at least one character, so
`input.length + 1` fuel is ample; exhausted fuel yields `none`, as does a
lexing error. -/
def tokenizeAux : Nat → List Char → Option (List Tok)
  | 0, _ => none
  | _ + 1, [] => some [Tok.eof]
  | fuel + 1, c :: rest =>
    if pyIsSpace c then tokenizeAux fuel rest
    else if c = '&' then (tokenizeAux fuel rest).map (fun ts => Tok.and :: ts)
    else if c = '|' then (tokenizeAux fuel rest).map (fun ts => Tok.or :: ts)
    else if c = '~' then (tokenizeAux fuel rest).map (fun ts => Tok.not :: ts)
    else if c = '<' then (tokenizeAux fuel rest).map (fun ts => Tok.before :: ts)
    else if c = '(' then (tokenizeAux fuel rest).map (fun ts => Tok.lparen :: ts)
    else if c = ')' then (tokenizeAux fuel rest).map (fun ts => Tok.rparen :: ts)
    else if c = '"' || c = '\'' then
      match readQuotedAux c rest [] with
      | none => none
      | some (v, rest2) => (tokenizeAux fuel rest2).map (fun ts => Tok.quoted v :: ts)
    else
      match readWordAux (c :: rest) [] with
      | none => none
      | some (v, rest2) => (tokenizeAux fuel rest2).map (fun ts => Tok.word v :: ts)

/-- `Lexer(input).tokenize()`. -/
def tokenize (input : List Char) : Option (List Tok) :=
  tokenizeAux (input.length + 1) input

example : tokenize "a & b".data =
    some [Tok.word ['a'], Tok.and, Tok.word ['b'], Tok.eof] := by decide

example : tokenize "\"unterminated".data = none := by decide

example : tokenize "first\\ name".data =
    some [Tok.word "first name".data, Tok.eof] := by decide

/-- The AST node variants of ast_nodes.py. -/
inductive ASTNode where
  | word (v : List Char)
  | quoted (v : List Char)
  | and (l r : ASTNode)
  | or (l r : ASTNode)
  | not (o : ASTNode)
  | before (l r : ASTNode)
deriving DecidableEq

/-- `Parser.atom`: accepts `WORD` or `QUOTED_STRING` and consumes one token
(the `ESCAPED_WORD` branch of the source is dead: the lexer never emits that
kind).  Any other current token — including the synthesized `EOF` when the
stream is exhausted — is a parse error. -/
def pAtom : List Tok → Option (ASTNode × List Tok)
  | Tok.word v :: rest => some (ASTNode.word v, rest)
  | Tok.quoted v :: rest => some (ASTNode.quoted v, rest)
  | _ => none

/-! The recursive-descent parser of parser.py.  Each Python method becomes a
function from the remaining token stream to the parsed node plus the
unconsumed stream; the `while` loops of `expression` / `and_term` /
`before_term` become the `...Loop` functions.  A fuel parameter makes the
recursion structural; running out of fuel yields `none`, exactly like a
parse error, and `parseToks` supplies more fuel than any input can use
(every parse-tree node consumes at least one token). -/

mutual

/-- `Parser.expression`: `and_term (OR and_term)*`. -/
def pExpression : Nat → List Tok → Option (ASTNode × List Tok)
  | 0, _ => none
  | fuel + 1, ts =>
    match pAndTerm fuel ts with
    | none => none
    | some (n, ts1) => pExprLoop fuel n ts1

/-- The `while current_token.type == OR` loop of `Parser.expression`. -/
def pExprLoop : Nat → ASTNode → List Tok → Option (ASTNode × List Tok)
  | 0, _, _ => none
  | fuel + 1, n, ts =>
    match ts with
    | Tok.or :: rest =>
      match pAndTerm fuel rest with
      | none => none
      | some (r, ts1) => pExprLoop fuel (ASTNode.or n r) ts1
    | _ => some (n, ts)

/-- `Parser.and_term`: `before_term (AND before_term)*`. -/
def pAndTerm : Nat → List Tok → Option (ASTNode × List Tok)
  | 0, _ => none
  | fuel + 1, ts =>
    match pBeforeTerm fuel ts with
    | none => none
    | some (n, ts1) => pAndLoop fuel n ts1

/-- The `while current_token.type == AND` loop of `Parser.and_term`. -/
def pAndLoop : Nat → ASTNode → List Tok → Option (ASTNode × List Tok)
  | 0, _, _ => none
  | fuel + 1, n, ts =>
    match ts with
    | Tok.and :: rest =>
      match pBeforeTerm fuel rest with
      | none => none
      | some (r, ts1) => pAndLoop fuel (ASTNode.and n r) ts1
    | _ => some (n, ts)

/-- `Parser.before_term`: `factor (BEFORE factor)*`. -/
def pBeforeTerm : Nat → List Tok → Option (ASTNode × List Tok)
  | 0, _ => none
  | fuel + 1, ts =>
    match pFactor fuel ts with
    | none => none
    | some (n, ts1) => pBeforeLoop fuel n ts1

/-- The `while current_token.type == BEFORE` loop of `Parser.before_term`. -/
def pBeforeLoop : Nat → ASTNode → List Tok → Option (ASTNode × List Tok)
  | 0, _, _ => none
  | fuel + 1, n, ts =>
    match ts with
    | Tok.before :: rest =>
      match pFactor fuel rest with
      | none => none
      | some (r, ts1) => pBeforeLoop fuel (ASTNode.before n r) ts1
    | _ => some (n, ts)

/-- `Parser.factor`: `NOT factor | '(' expression ')' | atom`. -/
def pFactor : Nat → List Tok → Option (ASTNode × List Tok)
  | 0, _ => none
  | fuel + 1, ts =>
    match ts with
    | Tok.not :: rest =>
      match pFactor fuel rest with
      | none => none
      | some (o, ts1) => some (ASTNode.not o, ts1)
    | Tok.lparen :: rest =>
      match pExpression fuel rest with
      | none => none
      | some (n, ts1) =>
        match ts1 with
        | Tok.rparen :: ts2 => some (n, ts2)
        | _ => none
    | _ => pAtom ts

end

/-- Ample fuel for `pExpression` on `ts` (see `parseToks`). -/
def parserFuel (ts : List Tok) : Nat :=
  5 * ts.length + 10

/-- `Parser(tokens).parse()`: the constructor rejects an empty token list,
`parse` rejects a leading `EOF` ("Empty input"), parses one expression and
then requires the current token to be `EOF` ("Unexpected content after
expression end").  A position past the end of the list counts as `EOF`, as
in `Parser.advance`. -/
def parseToks (ts : List Tok) : Option ASTNode :=
  match ts with
  | [] => none
  | t :: _ =>
    if t = Tok.eof then none
    else
      match pExpression (parserFuel ts) ts with
      | none => none
      | some (n, rest) =>
        match rest with
        | [] => some n
        | Tok.eof :: _ => some n
        | _ => none

/-- `findSub t v` is the least `i` with `v` a prefix of `t.drop i` (the
scan that Python's `str.find` performs from position `0`). -/
def findSub : List Char → List Char → Option Nat
  | t, v =>
    if v.isPrefixOf t then some 0
    else
      match t with
      | [] => none
      | _ :: t2 => (findSub t2 v).map (· + 1)

/-- Python `text.find(value, start)` for a non-negative `start`: the least
index `i ≥ start` at which `value` occurs in `text`; `none` models `-1`. -/
def pyFind (t v : List Char) (s : Nat) : Option Nat :=
  if s ≤ t.length then (findSub (t.drop s) v).map (· + s) else none

/-- Python `value in text` (substring containment). -/
def pyContains (t v : List Char) : Bool :=
  (findSub t v).isSome

/-- `Evaluator._find_index`: the earliest index at/after `s` of a node
match; `none` models Python's `-1`.  The `start >= len(text)` guard is
checked on every call, as in the source. -/
def findIndex : ASTNode → List Char → Nat → Option Nat
  | node, t, s =>
    if s ≥ t.length then none
    else
      match node with
      | ASTNode.word v => pyFind t v s
      | ASTNode.quoted v => pyFind t v s
      | ASTNode.or l r =>
        match findIndex l t s, findIndex r t s with
        | none, idxR => idxR
        | idxL, none => idxL
        | some i, some j => some (min i j)
      | ASTNode.and l r =>
        match findIndex l t s, findIndex r t s with
        | some i, some j => some (min i j)
        | _, _ => none
      | ASTNode.before l r =>
        match findIndex l t s with
        | none => none
        | some i => findIndex r t (i + 1)
      | ASTNode.not _ => none

/-- `Evaluator._visit`, with `Evaluator._visit_before` inlined in the
`before` case (the source helper only calls `_find_index`). -/
def visit : ASTNode → List Char → Bool
  | ASTNode.word v, t => pyContains t v
  | ASTNode.quoted v, t => pyContains t v
  | ASTNode.and l r, t => visit l t && visit r t
  | ASTNode.or l r, t => visit l t || visit r t
  | ASTNode.not o, t => !visit o t
  | ASTNode.before l r, t =>
    match findIndex l t 0 with
    | none => false
    | some i => (findIndex r t (i + 1)).isSome

/-- `Evaluator.evaluate`: an empty text never matches, whatever the AST. -/
def evaluate (node : ASTNode) (text : List Char) : Bool :=
  if text.isEmpty then false else visit node text

/-- Python `str.lower`, restricted to ASCII case folding. -/
def pyLower (s : List Char) : List Char :=
  s.map Char.toLower

/-- `gformfiller.infrastructure.dsl.match`: the complete pipeline.  `none`
models Python `None`, the indeterminate result returned on any
lexer/parser/evaluator error.  (The source evaluator can only raise on an
unknown node class, which the closed `ASTNode` type rules out; the
`ValueError` of `Parser.__init__` on an empty token list is unreachable
because the lexer always appends `EOF`.) -/
def dslMatch (text expression : String) (ignoreCase : Bool) : Option Bool :=
  if expression = "" then some true
  else
    let t := if ignoreCase then pyLower text.data else text.data
    let e := if ignoreCase then pyLower expression.data else expression.data
    match tokenize e with
    | none => none
    | some toks =>
      match parseToks toks with
      | none => none
      | some ast => some (evaluate ast t)

example : dslMatch "PYTHON" "python" true = some true := by decide

example : dslMatch "b a b" "a < b" true = some true := by decide

example : dslMatch "b a" "a < b" true = some false := by decide

example : dslMatch "x" "a | b & c" true = some false := by decide

example : dslMatch "user&admin" "user\\&admin" true = some true := by decide

example : dslMatch "anything" "a &" true = none := by decide

/-! Specification-side formulation of the positional search (§4.1 of the
spec), written from the spec's words so that it can be compared with the
embedding of `Evaluator._find_index`.  The only genuinely independent part
is the literal search: here it is "the least index of the whole text that
is at/after the start position and at which the literal occurs", obtained
as the head of the ascending list of all qualifying indices, whereas the
source scans forward from the start position. -/

/-- Spec-side literal search: the least `i ≥ s` at which `v` occurs in
`t`. -/
def specLeastOcc (t v : List Char) (s : Nat) : Option Nat :=
  ((List.range (t.length + 1)).filter
    (fun i => decide (s ≤ i) && v.isPrefixOf (t.drop i))).head?

/-- Spec-side "earliest index of a match at/after position p" helper
(§4.1): for `Or`, the minimum of the two branches' indices, each searched
independently; for `And`, both branches must be findable and the smaller
index is returned; a nested `Before` recurses to enforce strict
left-to-right ordering; `Not` has no meaningful index. -/
def specEarliestIndex : ASTNode → List Char → Nat → Option Nat
  | node, t, s =>
    if s ≥ t.length then none
    else
      match node with
      | ASTNode.word v => specLeastOcc t v s
      | ASTNode.quoted v => specLeastOcc t v s
      | ASTNode.or l r =>
        match specEarliestIndex l t s, specEarliestIndex r t s with
        | none, idxR => idxR
        | idxL, none => idxL
        | some i, some j => some (min i j)
      | ASTNode.and l r =>
        match specEarliestIndex l t s, specEarliestIndex r t s with
        | some i, some j => some (min i j)
        | _, _ => none
      | ASTNode.before l r =>
        match specEarliestIndex l t s with
        | none => none
        | some i => specEarliestIndex r t (i + 1)
      | ASTNode.not _ => none

/-- The forward scan of `findSub` computes the head of the ascending list
of all indices at which `v` occurs in `t`. -/
theorem findSub_eq_filterRange (t v : List Char) :
    findSub t v =
      ((List.range (t.length + 1)).filter (fun i => v.isPrefixOf (t.drop i))).head? := by
  induction t with
  | nil =>
    rw [findSub]
    have hr : List.range (List.length ([] : List Char) + 1) = [0] := rfl
    rw [hr, List.filter_cons]
    simp only [List.drop_zero]
    by_cases h : v.isPrefixOf ([] : List Char) = true
    · rw [if_pos h, if_pos h]
      rfl
    · rw [if_neg h, if_neg h]
      rfl
  | cons c t2 ih =>
    rw [findSub]
    have hrange : List.range ((c :: t2).length + 1)
        = 0 :: List.map Nat.succ (List.range (t2.length + 1)) := by
      rw [List.length_cons, List.range_succ_eq_map]
    rw [hrange, List.filter_cons]
    simp only [List.drop_zero]
    by_cases h : v.isPrefixOf (c :: t2) = true
    · rw [if_pos h, if_pos h]
      rfl
    · rw [if_neg h, if_neg h, List.filter_map, List.head?_map]
      have hfun : ((fun i => v.isPrefixOf ((c :: t2).drop i)) ∘ Nat.succ)
          = fun i => v.isPrefixOf (t2.drop i) := rfl
      rw [hfun, ← ih]

/-- The embedded `str.find` agrees with the spec-side least-occurrence
search. -/
theorem pyFind_eq_specLeastOcc (t v : List Char) (s : Nat) :
    pyFind t v s = specLeastOcc t v s := by
  unfold pyFind specLeastOcc
  by_cases hs : s ≤ t.length
  · rw [if_pos hs, findSub_eq_filterRange]
    have hsplit : List.range (t.length + 1)
        = List.range s ++ List.map (fun x => s + x) (List.range (t.length + 1 - s)) := by
      rw [← List.range_add]
      congr 1
      omega
    rw [hsplit, List.filter_append]
    have hleft : (List.range s).filter
        (fun i => decide (s ≤ i) && v.isPrefixOf (t.drop i)) = [] := by
      rw [List.filter_eq_nil_iff]
      intro a ha
      have : a < s := List.mem_range.mp ha
      simp [Nat.not_le.mpr this]
    rw [hleft, List.nil_append, List.filter_map, List.head?_map]
    have hlen : (t.drop s).length + 1 = t.length + 1 - s := by
      rw [List.length_drop]; omega
    rw [hlen]
    have hfun : ((fun i => decide (s ≤ i) && v.isPrefixOf (t.drop i)) ∘ fun x => s + x)
        = fun j => v.isPrefixOf ((t.drop s).drop j) := by
      funext j
      simp [Function.comp, List.drop_drop, Nat.le_add_right]
    rw [hfun]
    cases ((List.range (t.length + 1 - s)).filter
        (fun j => v.isPrefixOf ((t.drop s).drop j))).head? with
    | none => rfl
    | some j => simp [Nat.add_comm]
  · rw [if_neg hs]
    symm
    rw [List.head?_eq_none_iff, List.filter_eq_nil_iff]
    intro a ha
    have : a < t.length + 1 := List.mem_range.mp ha
    have : ¬(s ≤ a) := by omega
    simp [this]

/-- `Evaluator._find_index` computes exactly the spec-side earliest-index
function. -/
theorem findIndex_eq_spec (node : ASTNode) :
    ∀ (t : List Char) (s : Nat), findIndex node t s = specEarliestIndex node t s := by
  induction node with
  | word v =>
    intro t s
    rw [findIndex, specEarliestIndex]
    by_cases h : s ≥ t.length <;> simp [h, pyFind_eq_specLeastOcc]
  | quoted v =>
    intro t s
    rw [findIndex, specEarliestIndex]
    by_cases h : s ≥ t.length <;> simp [h, pyFind_eq_specLeastOcc]
  | and l r ihl ihr =>
    intro t s
    rw [findIndex, specEarliestIndex]
    by_cases h : s ≥ t.length <;> simp [h, ihl, ihr]
  | or l r ihl ihr =>
    intro t s
    rw [findIndex, specEarliestIndex]
    by_cases h : s ≥ t.length <;> simp [h, ihl, ihr]
  | not o ih =>
    intro t s
    rw [findIndex, specEarliestIndex]
  | before l r ihl ihr =>
    intro t s
    rw [findIndex, specEarliestIndex]
    by_cases h : s ≥ t.length <;> simp [h, ihl, ihr]

/-- A found index is never before the start position. -/
theorem findIndex_start_le (node : ASTNode) :
    ∀ (t : List Char) (s i : Nat), findIndex node t s = some i → s ≤ i := by
  induction node with
  | word v =>
    intro t s i h
    rw [findIndex] at h
    by_cases hs : s ≥ t.length
    · simp [hs] at h
    · simp only [hs, if_false] at h
      unfold pyFind at h
      rcases Nat.lt_or_ge t.length s with h2 | h2
      · omega
      · rw [if_pos h2] at h
        obtain ⟨j, _, hj⟩ := Option.map_eq_some'.mp h
        omega
  | quoted v =>
    intro t s i h
    rw [findIndex] at h
    by_cases hs : s ≥ t.length
    · simp [hs] at h
    · simp only [hs, if_false] at h
      unfold pyFind at h
      rcases Nat.lt_or_ge t.length s with h2 | h2
      · omega
      · rw [if_pos h2] at h
        obtain ⟨j, _, hj⟩ := Option.map_eq_some'.mp h
        omega
  | and l r ihl ihr =>
    intro t s i h
    rw [findIndex] at h
    by_cases hs : s ≥ t.length
    · simp [hs] at h
    · simp only [hs, if_false] at h
      split at h
      · have ha := ihl t s _ (by assumption)
        have hb := ihr t s _ (by assumption)
        cases h
        exact le_min ha hb
      · cases h
  | or l r ihl ihr =>
    intro t s i h
    rw [findIndex] at h
    by_cases hs : s ≥ t.length
    · simp [hs] at h
    · simp only [hs, if_false] at h
      split at h
      · exact ihr t s i h
      · exact ihl t s i h
      · have ha := ihl t s _ (by assumption)
        have hb := ihr t s _ (by assumption)
        cases h
        exact le_min ha hb
  | not o ih =>
    intro t s i h
    rw [findIndex] at h
    by_cases hs : s ≥ t.length <;> simp [hs] at h
  | before l r ihl ihr =>
    intro t s i h
    rw [findIndex] at h
    by_cases hs : s ≥ t.length
    · simp [hs] at h
    · simp only [hs, if_false] at h
      split at h
      · cases h
      · have h1 := ihl t s _ (by assumption)
        have h2 := ihr t _ i h
        omega

/-- C3: `Before(L, R)` evaluates to true iff the earliest occurrence of `L`
(per the index helper) starts at some `i` and `R` has an occurrence
starting strictly after `i`; the helper agrees everywhere with the
spec-side earliest-index function (`Or` = minimum of the two independently
searched branches, `And` = both findable, smaller index); and the two
strictness examples: `match("b a b", "a < b") = true`,
`match("b a", "a < b") = false`. -/
theorem before_semantics :
    (∀ (L R : ASTNode) (t : List Char),
        visit (ASTNode.before L R) t = true ↔
          ∃ i, findIndex L t 0 = some i ∧ ∃ j, i < j ∧ findIndex R t (i + 1) = some j)
    ∧ (∀ (node : ASTNode) (t : List Char) (s : Nat),
        findIndex node t s = specEarliestIndex node t s)
    ∧ dslMatch "b a b" "a < b" true = some true
    ∧ dslMatch "b a" "a < b" true = some false := by
  refine ⟨?_, findIndex_eq_spec, by decide, by decide⟩
  intro L R t
  rw [visit]
  cases hl : findIndex L t 0 with
  | none =>
    simp only [hl]
    constructor
    · intro h
      cases h
    · rintro ⟨i, hi, -⟩
      cases hi
  | some i =>
    simp only [hl, Option.isSome_iff_exists]
    constructor
    · rintro ⟨j, hj⟩
      have := findIndex_start_le R t (i + 1) j hj
      exact ⟨i, rfl, j, by omega, hj⟩
    · rintro ⟨i2, hi2, j, hij, hj⟩
      cases hi2
      exact ⟨j, hj⟩

/-- Whether a `Not` node occurs anywhere in a subtree. -/
def hasNotNode : ASTNode → Bool
  | ASTNode.word _ => false
  | ASTNode.quoted _ => false
  | ASTNode.and l r => hasNotNode l || hasNotNode r
  | ASTNode.or l r => hasNotNode l || hasNotNode r
  | ASTNode.before l r => hasNotNode l || hasNotNode r
  | ASTNode.not _ => true

/-- C6 counterexample: a `Before` whose subtree contains a `Not` node can
still evaluate to true — a `Not` strictly inside an `Or` branch does not
make the index search report "not found", because `_find_index` takes the
other branch's index.  `(~a | b) < c` matches `"b c"`. -/
theorem before_not_counterexample :
    hasNotNode (ASTNode.before
        (ASTNode.or (ASTNode.not (ASTNode.word ['a'])) (ASTNode.word ['b']))
        (ASTNode.word ['c'])) = true
    ∧ visit (ASTNode.before
        (ASTNode.or (ASTNode.not (ASTNode.word ['a'])) (ASTNode.word ['b']))
        (ASTNode.word ['c'])) "b c".data = true
    ∧ dslMatch "b c" "(~a | b) < c" true = some true := by
  decide

/-- C6 (amended): the positional index search reports a `Not` node itself
as "not found"; consequently a `Before` one of whose operands is a `Not`
node evaluates to false on every text, and in particular `~a < b` can
never match any text. -/
theorem before_not_amended :
    (∀ (o : ASTNode) (t : List Char) (s : Nat), findIndex (ASTNode.not o) t s = none)
    ∧ (∀ (A R : ASTNode) (t : List Char), visit (ASTNode.before (ASTNode.not A) R) t = false)
    ∧ (∀ (L A : ASTNode) (t : List Char), visit (ASTNode.before L (ASTNode.not A)) t = false)
    ∧ (∀ t : String, dslMatch t "~a < b" true = some false) := by
  have hnot : ∀ (o : ASTNode) (t : List Char) (s : Nat),
      findIndex (ASTNode.not o) t s = none := by
    intro o t s
    rw [findIndex]
    split <;> rfl
  have hleft : ∀ (A R : ASTNode) (t : List Char),
      visit (ASTNode.before (ASTNode.not A) R) t = false := by
    intro A R t
    rw [visit, hnot]
  have hright : ∀ (L A : ASTNode) (t : List Char),
      visit (ASTNode.before L (ASTNode.not A)) t = false := by
    intro L A t
    rw [visit]
    cases hl : findIndex L t 0 with
    | none => rfl
    | some i => simp [hnot]
  refine ⟨hnot, hleft, hright, ?_⟩
  intro t
  have heval : dslMatch t "~a < b" true
      = some (evaluate (ASTNode.before (ASTNode.not (ASTNode.word ['a'])) (ASTNode.word ['b']))
          (pyLower t.data)) := rfl
  rw [heval]
  unfold evaluate
  split
  · rfl
  · rw [hleft]

/-- Reduction of the `dslMatch` pipeline for a non-empty expression. -/
theorem dslMatch_pipeline (t e : String) (he : e ≠ "") :
    dslMatch t e true =
      match tokenize (pyLower e.data) with
      | none => none
      | some toks =>
        match parseToks toks with
        | none => none
        | some ast => some (evaluate ast (pyLower t.data)) := by
  rw [dslMatch, if_neg he]
  rfl

/-- C10: on an empty subject text the evaluator short-circuits before
visiting the AST, so every syntactically valid non-empty expression —
including the pure negation `~foo`, which is logically true of the empty
string — yields false, while the empty expression yields true. -/
theorem empty_text_never_matches :
    (∀ (e : String), e ≠ "" → ∀ b, dslMatch "" e true = some b → b = false)
    ∧ dslMatch "" "~foo" true = some false
    ∧ dslMatch "" "" true = some true := by
  refine ⟨?_, by decide, by decide⟩
  intro e he b hb
  rw [dslMatch_pipeline "" e he] at hb
  cases h1 : tokenize (pyLower e.data) with
  | none => simp only [h1] at hb; cases hb
  | some toks =>
    simp only [h1] at hb
    cases h2 : parseToks toks with
    | none => simp only [h2] at hb; cases hb
    | some ast =>
      simp only [h2, Option.some.injEq] at hb
      rw [← hb]
      rfl

/-- C10 witness: instantiated at the expression `~foo`. -/
theorem empty_text_never_matches_witness :
    ("~foo" : String) ≠ "" ∧ (false : Bool) = false :=
  ⟨by decide, empty_text_never_matches.1 "~foo" (by decide) false (by decide)⟩

/-- C4: a lexer or parser failure makes `match` return the distinguished
indeterminate result `none` (never an exception — the embedded `dslMatch`
is a total function, and the source catches every `DSLError`); in
particular the unterminated-quote expression and the dangling-operator
expression yield `none` for every subject text. -/
theorem dsl_errors_are_indeterminate :
    (∀ t : String, dslMatch t "\"unterminated" true = none)
    ∧ (∀ t : String, dslMatch t "A &" true = none)
    ∧ (∀ (t e : String), e ≠ "" → tokenize (pyLower e.data) = none →
        dslMatch t e true = none)
    ∧ (∀ (t e : String) (toks : List Tok), e ≠ "" →
        tokenize (pyLower e.data) = some toks → parseToks toks = none →
        dslMatch t e true = none) := by
  refine ⟨fun t => rfl, fun t => rfl, ?_, ?_⟩
  · intro t e he h1
    rw [dslMatch_pipeline t e he]
    simp only [h1]
  · intro t e toks he h1 h2
    rw [dslMatch_pipeline t e he]
    simp only [h1, h2]

/-- C4 witness: instantiated at a lexing failure (`"q`) and a parsing
failure (`A &`). -/
theorem dsl_errors_are_indeterminate_witness :
    dslMatch "x" "\"q" true = none ∧ dslMatch "x" "A &" true = none :=
  ⟨dsl_errors_are_indeterminate.2.2.1 "x" "\"q" (by decide) (by decide),
   dsl_errors_are_indeterminate.2.2.2 "x" "A &"
     [Tok.word ['a'], Tok.and, Tok.eof] (by decide) (by decide) (by decide)⟩

/-- `Parser.atom` never invents tokens: the unconsumed stream is a suffix
of the input stream. -/
theorem pAtom_suffix : ∀ (ts : List Tok) (n : ASTNode) (rest : List Tok),
    pAtom ts = some (n, rest) → rest <:+ ts := by
  intro ts n rest h
  cases ts with
  | nil => cases h
  | cons hd tl =>
    cases hd with
    | word v => cases h; exact List.suffix_cons _ _
    | quoted v => cases h; exact List.suffix_cons _ _
    | and => cases h
    | or => cases h
    | not => cases h
    | before => cases h
    | lparen => cases h
    | rparen => cases h
    | eof => cases h

/-- Every parsing function only consumes tokens from the front: whatever it
leaves unconsumed is a suffix of its input. -/
theorem parser_suffix : ∀ fuel : Nat,
    (∀ ts n rest, pExpression fuel ts = some (n, rest) → rest <:+ ts)
    ∧ (∀ a ts n rest, pExprLoop fuel a ts = some (n, rest) → rest <:+ ts)
    ∧ (∀ ts n rest, pAndTerm fuel ts = some (n, rest) → rest <:+ ts)
    ∧ (∀ a ts n rest, pAndLoop fuel a ts = some (n, rest) → rest <:+ ts)
    ∧ (∀ ts n rest, pBeforeTerm fuel ts = some (n, rest) → rest <:+ ts)
    ∧ (∀ a ts n rest, pBeforeLoop fuel a ts = some (n, rest) → rest <:+ ts)
    ∧ (∀ ts n rest, pFactor fuel ts = some (n, rest) → rest <:+ ts) := by
  intro fuel
  induction fuel with
  | zero =>
    exact ⟨fun ts n rest h => by simp [pExpression] at h,
           fun a ts n rest h => by simp [pExprLoop] at h,
           fun ts n rest h => by simp [pAndTerm] at h,
           fun a ts n rest h => by simp [pAndLoop] at h,
           fun ts n rest h => by simp [pBeforeTerm] at h,
           fun a ts n rest h => by simp [pBeforeLoop] at h,
           fun ts n rest h => by simp [pFactor] at h⟩
  | succ fuel ih =>
    obtain ⟨ihE, ihEL, ihA, ihAL, ihB, ihBL, ihF⟩ := ih
    refine ⟨?_, ?_, ?_, ?_, ?_, ?_, ?_⟩
    · intro ts n rest h
      simp only [pExpression] at h
      split at h
      · cases h
      · rename_i n1 ts1 heq
        exact List.IsSuffix.trans (ihEL _ _ _ _ h) (ihA _ _ _ heq)
    · intro a ts n rest h
      simp only [pExprLoop] at h
      split at h
      · rename_i rest2
        split at h
        · cases h
        · rename_i r ts1 heq
          exact List.IsSuffix.trans (ihEL _ _ _ _ h)
            (List.IsSuffix.trans (ihA _ _ _ heq) (List.suffix_cons _ _))
      · cases h
        exact List.suffix_rfl
    · intro ts n rest h
      simp only [pAndTerm] at h
      split at h
      · cases h
      · rename_i n1 ts1 heq
        exact List.IsSuffix.trans (ihAL _ _ _ _ h) (ihB _ _ _ heq)
    · intro a ts n rest h
      simp only [pAndLoop] at h
      split at h
      · rename_i rest2
        split at h
        · cases h
        · rename_i r ts1 heq
          exact List.IsSuffix.trans (ihAL _ _ _ _ h)
            (List.IsSuffix.trans (ihB _ _ _ heq) (List.suffix_cons _ _))
      · cases h
        exact List.suffix_rfl
    · intro ts n rest h
      simp only [pBeforeTerm] at h
      split at h
      · cases h
      · rename_i n1 ts1 heq
        exact List.IsSuffix.trans (ihBL _ _ _ _ h) (ihF _ _ _ heq)
    · intro a ts n rest h
      simp only [pBeforeLoop] at h
      split at h
      · rename_i rest2
        split at h
        · cases h
        · rename_i r ts1 heq
          exact List.IsSuffix.trans (ihBL _ _ _ _ h)
            (List.IsSuffix.trans (ihF _ _ _ heq) (List.suffix_cons _ _))
      · cases h
        exact List.suffix_rfl
    · intro ts n rest h
      simp only [pFactor] at h
      split at h
      · rename_i rest2
        split at h
        · cases h
        · rename_i o ts1 heq
          cases h
          exact List.IsSuffix.trans (ihF _ _ _ heq) (List.suffix_cons _ _)
      · rename_i rest2
        split at h
        · cases h
        · rename_i n1 ts1 heq
          split at h
          · rename_i ts2
            cases h
            exact List.IsSuffix.trans
              (List.IsSuffix.trans (List.suffix_cons _ _) (ihE _ _ _ heq))
              (List.suffix_cons _ _)
          · cases h
      · exact pAtom_suffix _ _ _ h

/-- Shape of the lexer's output: a single `EOF` marker, at the very end. -/
theorem tokenizeAux_shape : ∀ (fuel : Nat) (input : List Char) (ts : List Tok),
    tokenizeAux fuel input = some ts →
    ∃ ts2, ts = ts2 ++ [Tok.eof] ∧ Tok.eof ∉ ts2 := by
  intro fuel
  induction fuel with
  | zero => intro input ts h; simp [tokenizeAux] at h
  | succ fuel ih =>
    intro input ts h
    cases input with
    | nil =>
      simp only [tokenizeAux] at h
      cases h
      exact ⟨[], rfl, by simp⟩
    | cons c rest =>
      simp only [tokenizeAux] at h
      have step : ∀ (tk : Tok) (r2 : List Char), tk ≠ Tok.eof →
          (tokenizeAux fuel r2).map (fun ts0 => tk :: ts0) = some ts →
          ∃ ts2, ts = ts2 ++ [Tok.eof] ∧ Tok.eof ∉ ts2 := by
        intro tk r2 htk hmap
        obtain ⟨ts0, hts0, rfl⟩ := Option.map_eq_some'.mp hmap
        obtain ⟨ts2, rfl, hmem⟩ := ih r2 ts0 hts0
        refine ⟨tk :: ts2, rfl, ?_⟩
        intro hmem2
        cases List.mem_cons.mp hmem2 with
        | inl heq => exact htk heq.symm
        | inr hm => exact hmem hm
      split_ifs at h
      · exact ih rest ts h
      · exact step Tok.and rest (fun hc => Tok.noConfusion hc) h
      · exact step Tok.or rest (fun hc => Tok.noConfusion hc) h
      · exact step Tok.not rest (fun hc => Tok.noConfusion hc) h
      · exact step Tok.before rest (fun hc => Tok.noConfusion hc) h
      · exact step Tok.lparen rest (fun hc => Tok.noConfusion hc) h
      · exact step Tok.rparen rest (fun hc => Tok.noConfusion hc) h
      · split at h
        · cases h
        · rename_i v rest2 heq
          exact step (Tok.quoted v) rest2 (fun hc => Tok.noConfusion hc) h
      · split at h
        · cases h
        · rename_i v rest2 heq
          exact step (Tok.word v) rest2 (fun hc => Tok.noConfusion hc) h

/-- A suffix of `ts2 ++ [eof]` headed by `eof`, where `eof ∉ ts2`, can only
be the final `[eof]` marker itself. -/
theorem suffix_eof_cases : ∀ (ts2 tail : List Tok), Tok.eof ∉ ts2 →
    (Tok.eof :: tail) <:+ ts2 ++ [Tok.eof] → tail = [] := by
  intro ts2
  induction ts2 with
  | nil =>
    intro tail hmem hsuf
    rw [List.nil_append] at hsuf
    have hlen := hsuf.length_le
    cases tail with
    | nil => rfl
    | cons a b =>
      simp only [List.length_cons, List.length_nil] at hlen
      omega
  | cons x ts2 ih =>
    intro tail hmem hsuf
    rw [List.cons_append, List.suffix_cons_iff] at hsuf
    cases hsuf with
    | inl heq =>
      have hx : Tok.eof = x := (List.cons.injEq _ _ _ _).mp heq |>.1
      exact absurd (hx ▸ List.mem_cons_self x (ts2 ++ [Tok.eof]) :
        Tok.eof ∈ x :: ts2 ++ [Tok.eof]) (by simp [List.mem_cons] at hmem ⊢; tauto)
    | inr hsuf2 =>
      exact ih tail (fun hm => hmem (List.mem_cons_of_mem _ hm)) hsuf2

/-- If the whole `parse` succeeded, the remaining stream after the
top-level `expression` starts with `EOF` (or is exhausted). -/
theorem parseToks_rest_eof : ∀ (ts : List Tok) (ast : ASTNode), parseToks ts = some ast →
    ∀ n rest, pExpression (parserFuel ts) ts = some (n, rest) →
      rest = [] ∨ ∃ tl, rest = Tok.eof :: tl := by
  intro ts ast hparse n rest hexp
  cases ts with
  | nil => cases hparse
  | cons t tl2 =>
    simp only [parseToks] at hparse
    split at hparse
    · cases hparse
    · rw [hexp] at hparse
      cases rest with
      | nil => exact Or.inl rfl
      | cons r0 rtail =>
        cases r0 with
        | eof => exact Or.inr ⟨rtail, rfl⟩
        | word v => cases hparse
        | quoted v => cases hparse
        | and => cases hparse
        | or => cases hparse
        | not => cases hparse
        | before => cases hparse
        | lparen => cases hparse
        | rparen => cases hparse

/-- Lex-then-parse pipeline (no case folding), for stating parser facts. -/
def parseOfString (s : String) : Option ASTNode :=
  match tokenize s.data with
  | none => none
  | some ts => parseToks ts

/-- C5: operator precedence OR < AND < BEFORE < NOT, witnessed by the
spec's two parse trees (plus the two analogous NOT/BEFORE trees), and:
whenever parsing a lexer-produced token stream succeeds, the top-level
expression consumed the entire stream up to the final `EOF` marker. -/
theorem parser_precedence :
    parseOfString "A | B & C" = some (ASTNode.or (ASTNode.word ['A'])
        (ASTNode.and (ASTNode.word ['B']) (ASTNode.word ['C'])))
    ∧ parseOfString "A & B < C" = some (ASTNode.and (ASTNode.word ['A'])
        (ASTNode.before (ASTNode.word ['B']) (ASTNode.word ['C'])))
    ∧ parseOfString "~A & B" = some (ASTNode.and
        (ASTNode.not (ASTNode.word ['A'])) (ASTNode.word ['B']))
    ∧ parseOfString "~A < B" = some (ASTNode.before
        (ASTNode.not (ASTNode.word ['A'])) (ASTNode.word ['B']))
    ∧ (∀ (input : List Char) (ts : List Tok) (ast : ASTNode),
        tokenize input = some ts → parseToks ts = some ast →
        ∀ n rest, pExpression (parserFuel ts) ts = some (n, rest) →
          rest = [] ∨ rest = [Tok.eof]) := by
  refine ⟨by decide, by decide, by decide, by decide, ?_⟩
  intro input ts ast htok hparse n rest hexp
  obtain ⟨ts2, rfl, hmem⟩ := tokenizeAux_shape _ _ _ htok
  have hsuf : rest <:+ ts2 ++ [Tok.eof] :=
    (parser_suffix (parserFuel _)).1 _ _ _ hexp
  cases parseToks_rest_eof _ _ hparse _ _ hexp with
  | inl h => exact Or.inl h
  | inr h =>
    obtain ⟨tl, rfl⟩ := h
    have : tl = [] := suffix_eof_cases ts2 tl hmem hsuf
    rw [this]
    exact Or.inr rfl

/-- C5 witness: the full-consumption clause instantiated on the one-word
input `a`, whose token stream is `[WORD a, EOF]`. -/
theorem parser_precedence_witness :
    ([Tok.eof] : List Tok) = [] ∨ ([Tok.eof] : List Tok) = [Tok.eof] :=
  parser_precedence.2.2.2.2 "a".data [Tok.word ['a'], Tok.eof]
    (ASTNode.word ['a']) (by decide) (by decide)
    (ASTNode.word ['a']) [Tok.eof] (by decide)

/-- `List.find?` returns exactly the first element satisfying the
predicate: everything before it in the list fails the predicate. -/
theorem find?_first_characterization {α : Type} (p : α → Bool) :
    ∀ (l : List α) (a : α), l.find? p = some a ↔
      p a = true ∧ ∃ l1 l2, l = l1 ++ a :: l2 ∧ ∀ x ∈ l1, p x = false := by
  intro l
  induction l with
  | nil => simp
  | cons x xs ih =>
    intro a
    by_cases hx : p x = true
    · rw [List.find?_cons_of_pos _ hx]
      constructor
      · intro h
        cases h
        exact ⟨hx, [], xs, rfl, by simp⟩
      · rintro ⟨hpa, l1, l2, heq, hall⟩
        cases l1 with
        | nil =>
          simp only [List.nil_append] at heq
          cases heq
          rfl
        | cons y l1b =>
          rw [List.cons_append] at heq
          cases heq
          exact absurd hx (by simp [hall x (List.mem_cons_self _ _)])
    · rw [List.find?_cons_of_neg _ (by simpa using hx)]
      rw [ih a]
      constructor
      · rintro ⟨hpa, l1, l2, heq, hall⟩
        refine ⟨hpa, x :: l1, l2, by rw [heq, List.cons_append], ?_⟩
        intro y hy
        cases List.mem_cons.mp hy with
        | inl h => rw [h]; simpa using hx
        | inr h => exact hall y h
      · rintro ⟨hpa, l1, l2, heq, hall⟩
        cases l1 with
        | nil =>
          simp only [List.nil_append] at heq
          cases heq
          exact absurd hpa hx
        | cons y l1b =>
          rw [List.cons_append] at heq
          cases heq
          exact ⟨hpa, l1b, l2, rfl, fun z hz => hall z (List.mem_cons_of_mem _ hz)⟩

/-! Embedding of the response-handler dispatcher
    (domain/responses/__init__.py). -/

/-- The seven response kinds, in the order their handler classes appear in
`RESPONSE_HANDLERS`. -/
inductive RKind where
  | fileUpload
  | time
  | date
  | checkbox
  | radio
  | listbox
  | text
deriving DecidableEq

/-- `RESPONSE_HANDLERS`: the fixed priority order of handler probes. -/
def RESPONSE_HANDLERS : List RKind :=
  [RKind.fileUpload, RKind.time, RKind.date, RKind.checkbox, RKind.radio,
   RKind.listbox, RKind.text]

/-- Outcome of instantiating one handler class on a question container:
`success` (the structural probe of its `set_type` matched), `mismatch`
(`ElementTypeMismatchError`), or `failure` (any other exception).  Both
non-success outcomes make `identify_response_type` continue with the next
handler. -/
inductive ProbeOutcome where
  | success
  | mismatch
  | failure
deriving DecidableEq

/-- A question container element, abstracted to exactly what the
dispatcher observes: its accessible `role` attribute, whether a
`QUESTION_DESCRIPTION` region is present, and what each handler's
structural probe reports on it. -/
structure QuestionElement where
  role : List Char
  hasDescription : Bool
  probe : RKind → ProbeOutcome

/-- `_validate_question_element`: the element must carry
`role="listitem"` and contain a question-description region. -/
def validQuestionElement (e : QuestionElement) : Bool :=
  decide (e.role = "listitem".data) && e.hasDescription

/-- Result of `identify_response_type`: a handler instance, or one of the
two error exits (`QuestionNotAFormQuestionError` re-raised from
validation, or the final `ElementTypeMismatchError("Unknown", ...)`). -/
inductive IdentifyResult where
  | identified (k : RKind)
  | notAFormQuestion
  | unknownFieldType
deriving DecidableEq

/-- `identify_response_type`: validate the container, then try the
handlers in `RESPONSE_HANDLERS` order and return the first whose probe
succeeds; with no success, fail with the unknown-field-type error. -/
def identify_response_type (e : QuestionElement) : IdentifyResult :=
  if !validQuestionElement e then IdentifyResult.notAFormQuestion
  else
    match RESPONSE_HANDLERS.find? (fun k => decide (e.probe k = ProbeOutcome.success)) with
    | some k => IdentifyResult.identified k
    | none => IdentifyResult.unknownFieldType

/-- C1: for a validated question container the dispatcher returns exactly
the first handler (in the fixed order File-upload, Time, Date, Checkbox,
Radio, Dropdown-listbox, Text) whose probe succeeds; a container
qualifying both as Date and as Text (and not as the earlier kinds) is
classified Date — and `Date` succeeding means the result can never be
`Text`; if no probe succeeds the classification fails with the
unknown-field-type error. -/
theorem dispatch_priority :
    (∀ (e : QuestionElement) (k : RKind), validQuestionElement e = true →
      (identify_response_type e = IdentifyResult.identified k ↔
        e.probe k = ProbeOutcome.success ∧
          ∃ l1 l2, RESPONSE_HANDLERS = l1 ++ k :: l2 ∧
            ∀ k2 ∈ l1, e.probe k2 ≠ ProbeOutcome.success))
    ∧ (∀ e : QuestionElement, validQuestionElement e = true →
        e.probe RKind.date = ProbeOutcome.success →
        identify_response_type e ≠ IdentifyResult.identified RKind.text)
    ∧ (∀ e : QuestionElement, validQuestionElement e = true →
        e.probe RKind.fileUpload ≠ ProbeOutcome.success →
        e.probe RKind.time ≠ ProbeOutcome.success →
        e.probe RKind.date = ProbeOutcome.success →
        identify_response_type e = IdentifyResult.identified RKind.date)
    ∧ (∀ e : QuestionElement, validQuestionElement e = true →
        (∀ k, e.probe k ≠ ProbeOutcome.success) →
        identify_response_type e = IdentifyResult.unknownFieldType) := by
  have hvalid : ∀ e : QuestionElement, validQuestionElement e = true →
      identify_response_type e =
        match RESPONSE_HANDLERS.find? (fun k => decide (e.probe k = ProbeOutcome.success)) with
        | some k => IdentifyResult.identified k
        | none => IdentifyResult.unknownFieldType := by
    intro e hv
    rw [identify_response_type, hv]
    rfl
  refine ⟨?_, ?_, ?_, ?_⟩
  · intro e k hv
    rw [hvalid e hv]
    cases hfind : RESPONSE_HANDLERS.find?
        (fun k => decide (e.probe k = ProbeOutcome.success)) with
    | none =>
      constructor
      · intro h
        cases h
      · rintro ⟨hk, l1, l2, heq, -⟩
        rw [List.find?_eq_none] at hfind
        exact absurd (by simpa using hk)
          (hfind k (by rw [heq]; exact List.mem_append_right _ (List.mem_cons_self _ _)))
    | some k2 =>
      have hch := (find?_first_characterization _ RESPONSE_HANDLERS k2).mp hfind
      simp only [IdentifyResult.identified.injEq]
      constructor
      · rintro rfl
        obtain ⟨hp, l1, l2, heq, hall⟩ := hch
        exact ⟨by simpa using hp, l1, l2, heq, fun x hx => by simpa using hall x hx⟩
      · rintro ⟨hk, l1, l2, heq, hall⟩
        have : RESPONSE_HANDLERS.find? (fun k => decide (e.probe k = ProbeOutcome.success))
            = some k := by
          rw [find?_first_characterization]
          exact ⟨by simpa using hk, l1, l2, heq,
            fun x hx => by simpa using hall x hx⟩
        rw [hfind] at this
        cases this
        rfl
  · intro e hv hdate h
    rw [hvalid e hv] at h
    cases hf : e.probe RKind.fileUpload <;> cases ht : e.probe RKind.time <;>
      simp [RESPONSE_HANDLERS, List.find?_cons, hf, ht, hdate] at h
  · intro e hv hf ht hd
    rw [hvalid e hv]
    cases hfv : e.probe RKind.fileUpload <;> cases htv : e.probe RKind.time <;>
      first
        | exact absurd hfv hf
        | exact absurd htv ht
        | simp [RESPONSE_HANDLERS, List.find?_cons, hfv, htv, hd]
  · intro e hv hall
    rw [hvalid e hv]
    have : RESPONSE_HANDLERS.find? (fun k => decide (e.probe k = ProbeOutcome.success))
        = none := by
      rw [List.find?_eq_none]
      intro x hx
      simpa using hall x
    rw [this]

/-- A concrete question container qualifying both as a Date field and as a
generic Text field (all other probes mismatch). -/
def dateAndTextElement : QuestionElement :=
  QuestionElement.mk "listitem".data true
    (fun k =>
      match k with
      | RKind.date => ProbeOutcome.success
      | RKind.text => ProbeOutcome.success
      | _ => ProbeOutcome.mismatch)

/-- C1 witness: the Date/Text container is classified Date, never Text. -/
theorem dispatch_priority_witness :
    identify_response_type dateAndTextElement = IdentifyResult.identified RKind.date
    ∧ identify_response_type dateAndTextElement ≠ IdentifyResult.identified RKind.text :=
  ⟨dispatch_priority.2.2.1 dateAndTextElement (by decide) (by decide) (by decide) (by decide),
   dispatch_priority.2.1 dateAndTextElement (by decide) (by decide)⟩

/-! Embedding of the checkbox handler (domain/responses/checkbox.py). -/

/-- One checkbox option as `CheckboxResponse.push` observes it: its
`aria-label` attribute (possibly absent) and whether it is currently
checked (`aria-checked`/`checked`). -/
structure CBox where
  ariaLabel : Option String
  checked : Bool
deriving DecidableEq

/-- Loop body of `CheckboxResponse.push` for one checkbox, returning the
option's new state and its contribution to `successful_clicks` (0 or 1):
a checkbox without `aria-label` is skipped; an indeterminate DSL result
(`none`) fires nothing; a true match clicks only when unchecked (counted);
a false match un-clicks only when checked (not counted). -/
def pushOne (expr : String) (cb : CBox) : CBox × Nat :=
  match cb.ariaLabel with
  | none => (cb, 0)
  | some lbl =>
    match dslMatch lbl expr true with
    | some true => if !cb.checked then (CBox.mk cb.ariaLabel true, 1) else (cb, 0)
    | some false => if cb.checked then (CBox.mk cb.ariaLabel false, 0) else (cb, 0)
    | none => (cb, 0)

/-- `CheckboxResponse.push` over all of the question's checkboxes: the
returned flag is `False` exactly when `successful_clicks == 0 and not
self._all_checkboxes` (i.e. when the option list is empty), `True`
otherwise. -/
def pushCheckbox (expr : String) (cbs : List CBox) : List CBox × Nat × Bool :=
  ((cbs.map (pushOne expr)).map Prod.fst,
   ((cbs.map (pushOne expr)).map Prod.snd).sum,
   if ((cbs.map (pushOne expr)).map Prod.snd).sum = 0 ∧ cbs.isEmpty = true then false
   else true)

/-- `CheckboxResponse.set_type`: classification of a checkbox question
succeeds exactly when at least one checkbox option is present. -/
def checkboxSetType (cbs : List CBox) : Option Unit :=
  if cbs.isEmpty then none else some ()

/-- Applying the same expression to an already-pushed checkbox touches
nothing and clicks nothing. -/
theorem pushOne_fixpoint (expr : String) (cb : CBox) :
    pushOne expr (pushOne expr cb).1 = ((pushOne expr cb).1, 0) := by
  cases cb with
  | mk lbl chk =>
    cases lbl with
    | none => rfl
    | some l =>
      cases hm : dslMatch l expr true with
      | none => simp [pushOne, hm]
      | some b =>
        cases b with
        | true => cases chk <;> simp [pushOne, hm]
        | false => cases chk <;> simp [pushOne, hm]

/-- C7: Checkbox apply is idempotent — a second apply of the same
expression against the already-correct state changes nothing, fires zero
clicks and still reports success — and any apply on a classified checkbox
question (at least one option located by `set_type`) reports success,
regardless of whether any click fired. -/
theorem checkbox_idempotent :
    (∀ (expr : String) (cbs : List CBox),
        pushCheckbox expr (pushCheckbox expr cbs).1
          = ((pushCheckbox expr cbs).1, 0, !cbs.isEmpty))
    ∧ (∀ (expr : String) (cbs : List CBox), checkboxSetType cbs = some () →
        (pushCheckbox expr cbs).2.2 = true
        ∧ (pushCheckbox expr (pushCheckbox expr cbs).1).2.2 = true) := by
  have hfix : ∀ (expr : String) (cbs : List CBox),
      (((cbs.map (pushOne expr)).map Prod.fst).map (pushOne expr))
        = cbs.map (fun cb => ((pushOne expr cb).1, 0)) := by
    intro expr cbs
    rw [List.map_map, List.map_map]
    apply List.map_congr_left
    intro cb _
    exact pushOne_fixpoint expr cb
  have hmain : ∀ (expr : String) (cbs : List CBox),
      pushCheckbox expr (pushCheckbox expr cbs).1
        = ((pushCheckbox expr cbs).1, 0, !cbs.isEmpty) := by
    intro expr cbs
    cases cbs with
    | nil => rfl
    | cons c0 crest =>
      show pushCheckbox expr (((c0 :: crest).map (pushOne expr)).map Prod.fst) = _
      unfold pushCheckbox
      rw [hfix]
      rw [List.map_map, List.map_map, List.map_map]
      have hz : ∀ l : List CBox,
          (List.map (Prod.snd ∘ fun cb => ((pushOne expr cb).1, 0)) l).sum = 0 := by
        intro l
        induction l with
        | nil => rfl
        | cons a b ihb => simp [ihb]
      simp [Function.comp, List.isEmpty_cons, hz]
  refine ⟨hmain, ?_⟩
  intro expr cbs hclass
  have hne : cbs.isEmpty = false := by
    unfold checkboxSetType at hclass
    cases h : cbs.isEmpty with
    | true => rw [h] at hclass; cases hclass
    | false => rfl
  constructor
  · unfold pushCheckbox
    rw [if_neg]
    rintro ⟨-, habs⟩
    rw [hne] at habs
    cases habs
  · rw [hmain expr cbs, hne]
    rfl

/-- C7 witness: a one-option checkbox question. -/
theorem checkbox_idempotent_witness :
    (pushCheckbox "option" [CBox.mk (some "option a") false]).2.2 = true
    ∧ (pushCheckbox "option"
        (pushCheckbox "option" [CBox.mk (some "option a") false]).1).2.2 = true :=
  checkbox_idempotent.2 "option" [CBox.mk (some "option a") false] (by decide)

/-! Embedding of the terminal-outcome logic of `FormFiller.run` and
`FormFiller.submit` (domain/form_filler.py).  A run is driven by the
per-iteration outcome of `_navigate_to_next_page` (the trace of page
steps) and by what the submission attempt finds at the end. -/

/-- Outcome of one iteration of the `while True` loop of `FormFiller.run`:
the next-button was clicked (`advance`), no next button so the
submit/terminate branch runs (`finalPage`), or an unrecoverable exception
was raised during the iteration (`exc`). -/
inductive PageStep where
  | advance
  | finalPage
  | exc
deriving DecidableEq

/-- What `FormFiller.submit` observes: whether submission was requested
(`self._should_submit`), whether the submit control can be located, and
whether clicking it succeeds. -/
structure SubmitEnv where
  shouldSubmit : Bool
  submitFound : Bool
  clickOk : Bool
deriving DecidableEq

/-- `FormFiller.submit`: skip when not requested; otherwise locate and
click the submit control.  Returns whether submission happened, paired
with the labels of the screenshots captured on the way. -/
def submitForm (env : SubmitEnv) : Bool × List String :=
  if !env.shouldSubmit then (false, [])
  else if env.submitFound then
    if env.clickOk then (true, ["SUCCESS_SUBMIT"])
    else (false, ["FAIL_SUBMIT_ERROR"])
  else (false, ["FAIL_SUBMIT_NOT_FOUND"])

/-- `FormFiller.run`'s loop over the trace of page steps.  The result is
the success flag paired with the diagnostic screenshots of the terminal
iteration; `none` models a trace too short to reach a terminal outcome
(the real loop would simply keep iterating). -/
def runFiller : List PageStep → SubmitEnv → Option (Bool × List String)
  | [], _ => none
  | PageStep.advance :: rest, env => runFiller rest env
  | PageStep.exc :: _, _ => some (false, ["FAIL_CRITICAL_UNHANDLED"])
  | PageStep.finalPage :: _, env =>
    if (submitForm env).1 then some (true, (submitForm env).2)
    else if !env.shouldSubmit then some (true, (submitForm env).2)
    else some (false, (submitForm env).2 ++ ["FAIL_HALTED"])

/-- The submission attempt succeeds exactly when it was requested, the
control was found and the click went through. -/
theorem submitForm_fst (env : SubmitEnv) :
    (submitForm env).1 = (env.shouldSubmit && (env.submitFound && env.clickOk)) := by
  cases env with
  | mk s f c => cases s <;> cases f <;> cases c <;> rfl

/-- Leading successful page advances do not affect the terminal outcome. -/
theorem runFiller_skip_advances (n : Nat) (l : List PageStep) (env : SubmitEnv) :
    runFiller (List.replicate n PageStep.advance ++ l) env = runFiller l env := by
  induction n with
  | zero => rfl
  | succ n ihn =>
    rw [List.replicate_succ, List.cons_append]
    exact ihn

/-- C2: the run returns success exactly when the last page is reached and
submission either succeeded or was not requested; when submission was
requested but no submit control was found, it returns failure with the
diagnostic screenshots (`FAIL_SUBMIT_NOT_FOUND`, then `FAIL_HALTED`); an
unrecoverable exception mid-run returns failure with the
`FAIL_CRITICAL_UNHANDLED` screenshot; in both failure cases the rest of
the trace is ignored — the whole form is not retried. -/
theorem run_terminal_outcomes :
    (∀ (steps : List PageStep) (env : SubmitEnv) (shots : List String),
        runFiller steps env = some (true, shots) →
        (∃ n rest, steps = List.replicate n PageStep.advance ++ PageStep.finalPage :: rest)
        ∧ ((env.shouldSubmit = true ∧ env.submitFound = true ∧ env.clickOk = true)
            ∨ env.shouldSubmit = false))
    ∧ (∀ (n : Nat) (rest : List PageStep) (env : SubmitEnv),
        ((env.shouldSubmit = true ∧ env.submitFound = true ∧ env.clickOk = true)
          ∨ env.shouldSubmit = false) →
        ∃ shots,
          runFiller (List.replicate n PageStep.advance ++ PageStep.finalPage :: rest) env
            = some (true, shots))
    ∧ (∀ (n : Nat) (rest : List PageStep) (env : SubmitEnv),
        env.shouldSubmit = true → env.submitFound = false →
        runFiller (List.replicate n PageStep.advance ++ PageStep.finalPage :: rest) env
          = some (false, ["FAIL_SUBMIT_NOT_FOUND", "FAIL_HALTED"]))
    ∧ (∀ (n : Nat) (rest : List PageStep) (env : SubmitEnv),
        runFiller (List.replicate n PageStep.advance ++ PageStep.exc :: rest) env
          = some (false, ["FAIL_CRITICAL_UNHANDLED"])) := by
  refine ⟨?_, ?_, ?_, ?_⟩
  · intro steps
    induction steps with
    | nil => intro env shots h; cases h
    | cons hd tl ih =>
      intro env shots h
      cases hd with
      | advance =>
        obtain ⟨⟨n, rest, heq⟩, hcond⟩ := ih env shots h
        exact ⟨⟨n + 1, rest, by rw [List.replicate_succ, List.cons_append, heq]⟩, hcond⟩
      | exc =>
        rw [runFiller] at h
        cases h
      | finalPage =>
        rw [runFiller] at h
        refine ⟨⟨0, tl, rfl⟩, ?_⟩
        split at h
        · rename_i hsub
          rw [submitForm_fst] at hsub
          cases hs : env.shouldSubmit <;> rw [hs] at hsub
          · cases hsub
          · cases hf : env.submitFound <;> rw [hf] at hsub
            · cases hsub
            · cases hc : env.clickOk <;> rw [hc] at hsub
              · cases hsub
              · exact Or.inl ⟨rfl, rfl, rfl⟩

        · split at h
          · rename_i hnot
            cases hs : env.shouldSubmit
            · exact Or.inr rfl
            · rw [hs] at hnot; cases hnot
          · cases h
  · intro n rest env hcond
    rw [runFiller_skip_advances]
    cases hcond with
    | inl hall =>
      obtain ⟨hs, hf, hc⟩ := hall
      rw [runFiller]
      rw [if_pos (by rw [submitForm_fst, hs, hf, hc]; rfl)]
      exact ⟨(submitForm env).2, rfl⟩
    | inr hs =>
      rw [runFiller]
      have h1 : (submitForm env).1 = false := by
        rw [submitForm_fst, hs]
        rfl
      rw [h1, if_neg (by simp), if_pos (by rw [hs]; rfl)]
      exact ⟨(submitForm env).2, rfl⟩
  · intro n rest env hs hf
    rw [runFiller_skip_advances, runFiller]
    have hsub : submitForm env = (false, ["FAIL_SUBMIT_NOT_FOUND"]) := by
      unfold submitForm
      rw [hs, hf]
      rfl
    rw [hsub]
    rw [if_neg (by simp), if_neg (by rw [hs]; simp)]
    rfl
  · intro n rest env
    rw [runFiller_skip_advances]
    rfl

/-- C2 witness: a trace that reaches the last page after one advance with
submission requested but no submit control present, and a trace with an
unrecoverable exception. -/
theorem run_terminal_outcomes_witness :
    runFiller [PageStep.advance, PageStep.finalPage] (SubmitEnv.mk true false true)
      = some (false, ["FAIL_SUBMIT_NOT_FOUND", "FAIL_HALTED"])
    ∧ runFiller [PageStep.exc, PageStep.advance] (SubmitEnv.mk true true true)
      = some (false, ["FAIL_CRITICAL_UNHANDLED"]) :=
  ⟨run_terminal_outcomes.2.2.1 1 [] (SubmitEnv.mk true false true) rfl rfl,
   run_terminal_outcomes.2.2.2 0 [PageStep.advance] (SubmitEnv.mk true true true)⟩

/-! Embedding of the profile-queue scheduler (`process_queue` in
api/inscriptions.py). -/

/-- Python string `<=`: lexicographic comparison by code point (the order
used by `sorted` on the jobs' ISO `created_at` strings). -/
def pyStrLE : List Char → List Char → Bool
  | [], _ => true
  | _ :: _, [] => false
  | a :: as2, b :: bs2 => if a = b then pyStrLE as2 bs2 else decide (a < b)

theorem pyStrLE_total : ∀ x y : List Char, pyStrLE x y = true ∨ pyStrLE y x = true := by
  intro x
  induction x with
  | nil => intro y; exact Or.inl rfl
  | cons a as2 ih =>
    intro y
    cases y with
    | nil => exact Or.inr rfl
    | cons b bs2 =>
      by_cases hab : a = b
      · subst hab
        rw [pyStrLE, if_pos rfl, pyStrLE, if_pos rfl]
        exact ih bs2
      · rcases lt_trichotomy a b with h | h | h
        · exact Or.inl (by rw [pyStrLE, if_neg hab]; simpa using h)
        · exact absurd h hab
        · exact Or.inr (by rw [pyStrLE, if_neg (fun hc => hab hc.symm)]; simpa using h)

theorem pyStrLE_trans : ∀ x y z : List Char,
    pyStrLE x y = true → pyStrLE y z = true → pyStrLE x z = true := by
  intro x
  induction x with
  | nil => intro y z hxy hyz; rfl
  | cons a as2 ih =>
    intro y z hxy hyz
    cases y with
    | nil => rw [pyStrLE] at hxy; cases hxy
    | cons b bs2 =>
      cases z with
      | nil => rw [pyStrLE] at hyz; cases hyz
      | cons c cs2 =>
        rw [pyStrLE] at hxy hyz ⊢
        by_cases hab : a = b
        · subst hab
          rw [if_pos rfl] at hxy
          by_cases hbc : a = c
          · subst hbc
            rw [if_pos rfl] at hyz ⊢
            exact ih bs2 cs2 hxy hyz
          · rw [if_neg hbc] at hyz ⊢
            exact hyz
        · rw [if_neg hab] at hxy
          have hlt : a < b := by simpa using hxy
          by_cases hbc : b = c
          · subst hbc
            rw [if_neg hab]
            simpa using hlt
          · rw [if_neg hbc] at hyz
            have hlt2 : b < c := by simpa using hyz
            have hac : a < c := lt_trans hlt hlt2
            have hne : ¬(a = c) := fun hceq => absurd (hceq ▸ hac) (lt_irrefl c)
            rw [if_neg hne]
            simpa using hac

/-- One entry of `detailed_fillers`: a filler name and its `created_at`
metadata value. -/
structure Job where
  name : List Char
  created_at : List Char
deriving DecidableEq

/-- The sort key relation of `process_queue`'s `sorted(...,
key=lambda x: x["created_at"])`. -/
def jobLE (a b : Job) : Prop :=
  pyStrLE a.created_at b.created_at = true

instance : DecidableRel jobLE :=
  fun j1 j2 => inferInstanceAs (Decidable (pyStrLE j1.created_at j2.created_at = true))

instance : IsTotal Job jobLE :=
  ⟨fun a b => pyStrLE_total a.created_at b.created_at⟩

instance : IsTrans Job jobLE :=
  ⟨fun a b c => pyStrLE_trans a.created_at b.created_at c.created_at⟩

/-- The job-sorting step of `process_queue`: ascending stable sort by
creation time (oldest first). -/
def sortQueue (jobs : List Job) : List Job :=
  List.insertionSort jobLE jobs

/-- One profile slot of the fixed pool, with whether its lock artifact
(`.lock` file) currently exists. -/
structure ProfileSlot where
  name : List Char
  locked : Bool
deriving DecidableEq

/-- The profile scan of the loop body: the first profile in pool iteration
order whose lock artifact is absent. -/
def freeProfile (profiles : List ProfileSlot) : Option ProfileSlot :=
  profiles.find? (fun p => !p.locked)

/-- What one pass of the scheduling loop does. -/
inductive SchedAction where
  | assign (jobName profileName : List Char) (remaining : List Job)
  | backoff (seconds : Nat) (remaining : List Job)
deriving DecidableEq

/-- One iteration of `process_queue`'s `while queue:` body: with a free
profile, pop the oldest queued job (`queue.pop(0)`) and assign the profile
to it; with none, sleep the fixed 5-second backoff and leave the queue
untouched.  (The loop guard makes the queue non-empty; the empty-queue
case is never reached.) -/
def schedStep (profiles : List ProfileSlot) (queue : List Job) : SchedAction :=
  match freeProfile profiles with
  | some p =>
    match queue with
    | [] => SchedAction.backoff 5 []
    | j :: rest => SchedAction.assign j.name p.name rest
  | none => SchedAction.backoff 5 queue

/-- C8: the scheduler sorts the submitted jobs ascending by creation time
(a permutation of the input, sorted under the key order); an assignment
step pairs the oldest remaining job with the first profile in pool
iteration order whose lock artifact is absent (`find?` characterization);
on the spec's concrete instance (`P1` locked, `P2` free, `J1` older than
`J2`) the next assignment gives `P2` to `J1`; and with every profile
locked, nothing is assigned and the loop backs off for the fixed 5-second
interval with the queue unchanged. -/
theorem scheduler_fairness :
    (∀ jobs : List Job,
        List.Sorted jobLE (sortQueue jobs) ∧ List.Perm (sortQueue jobs) jobs)
    ∧ (∀ (profiles : List ProfileSlot) (j : Job) (rest : List Job) (p : ProfileSlot),
        freeProfile profiles = some p →
        schedStep profiles (j :: rest) = SchedAction.assign j.name p.name rest)
    ∧ (∀ (profiles : List ProfileSlot) (p : ProfileSlot),
        freeProfile profiles = some p ↔
          p.locked = false ∧ ∃ l1 l2, profiles = l1 ++ p :: l2 ∧
            ∀ q ∈ l1, q.locked = true)
    ∧ schedStep
        [ProfileSlot.mk "P1".data true, ProfileSlot.mk "P2".data false]
        (sortQueue [Job.mk "J2".data "2024-01-02".data, Job.mk "J1".data "2024-01-01".data])
        = SchedAction.assign "J1".data "P2".data [Job.mk "J2".data "2024-01-02".data]
    ∧ (∀ (profiles : List ProfileSlot) (queue : List Job),
        (∀ q ∈ profiles, q.locked = true) →
        schedStep profiles queue = SchedAction.backoff 5 queue) := by
  refine ⟨?_, ?_, ?_, by decide, ?_⟩
  · intro jobs
    exact ⟨List.sorted_insertionSort jobLE jobs, List.perm_insertionSort jobLE jobs⟩
  · intro profiles j rest p hfree
    rw [schedStep, hfree]
  · intro profiles p
    unfold freeProfile
    rw [find?_first_characterization]
    constructor
    · rintro ⟨hp, l1, l2, heq, hall⟩
      refine ⟨by simpa using hp, l1, l2, heq, ?_⟩
      intro q hq
      have := hall q hq
      simpa using this
    · rintro ⟨hp, l1, l2, heq, hall⟩
      refine ⟨by simp [hp], l1, l2, heq, ?_⟩
      intro q hq
      simp [hall q hq]
  · intro profiles queue hall
    rw [schedStep]
    have : freeProfile profiles = none := by
      unfold freeProfile
      rw [List.find?_eq_none]
      intro q hq
      simp [hall q hq]
    rw [this]

/-- C8 witness: the concrete pool instantiations. -/
theorem scheduler_fairness_witness :
    schedStep [ProfileSlot.mk "P1".data true, ProfileSlot.mk "P2".data false]
        (Job.mk "J1".data "2024-01-01".data :: [Job.mk "J2".data "2024-01-02".data])
      = SchedAction.assign "J1".data "P2".data [Job.mk "J2".data "2024-01-02".data]
    ∧ schedStep [ProfileSlot.mk "P1".data true]
        [Job.mk "J1".data "2024-01-01".data]
      = SchedAction.backoff 5 [Job.mk "J1".data "2024-01-01".data] :=
  ⟨scheduler_fairness.2.1 [ProfileSlot.mk "P1".data true, ProfileSlot.mk "P2".data false]
      (Job.mk "J1".data "2024-01-01".data) [Job.mk "J2".data "2024-01-02".data]
      (ProfileSlot.mk "P2".data false) (by decide),
   scheduler_fairness.2.2.2.2 [ProfileSlot.mk "P1".data true]
      [Job.mk "J1".data "2024-01-01".data] (by decide)⟩

/-! Embedding of the lock-release discipline of `FillerWorker.run`
(core/filler_worker.py). -/

/-- How the body of `FillerWorker.run`'s `try` block ends: the filler
engine finished with a success flag, or an unrecoverable exception was
raised somewhere inside the block. -/
inductive JobBody where
  | completed (success : Bool)
  | raisedExc
deriving DecidableEq

/-- The environment of one `FillerWorker.run` execution: whether the job
metadata carries a URL, whether the profile's lock artifact already exists
when the run starts, and how the try-block body ends. -/
structure WorkerEnv where
  urlPresent : Bool
  lockAlready : Bool
  body : JobBody
deriving DecidableEq

/-- The `finally` clause's lock cleanup:
`if lock_file.exists(): lock_file.unlink()`. -/
def releaseLock (lockExists : Bool) : Bool :=
  if lockExists then false else lockExists

/-- `FillerWorker.run`, reduced to its returned flag and the final state
of the profile's lock artifact.  A missing URL or an already-locked
profile return `False` before the lock is touched; otherwise the `try`
block creates the lock (`lock_file.touch()`), the body runs (an exception
is caught and turned into `False`), and the `finally` clause removes the
lock whatever happened. -/
def fillerWorkerRun (env : WorkerEnv) : Bool × Bool :=
  if !env.urlPresent then (false, env.lockAlready)
  else if env.lockAlready then (false, env.lockAlready)
  else
    let lockDuring := true
    let result :=
      match env.body with
      | JobBody.completed s => s
      | JobBody.raisedExc => false
    (result, releaseLock lockDuring)

/-- C9: every execution that claimed the profile's lock artifact (URL
present, profile not already locked) ends with the lock artifact removed,
whether the body completed successfully, completed with a controlled
failure, or raised an unrecoverable exception — and the returned flag is
`True` exactly for a successful completion. -/
theorem lock_released_unconditionally :
    ∀ env : WorkerEnv, env.urlPresent = true → env.lockAlready = false →
      (fillerWorkerRun env).2 = false
      ∧ ((fillerWorkerRun env).1 = true ↔ env.body = JobBody.completed true) := by
  intro env hurl hlock
  cases env with
  | mk u l b =>
    cases hurl
    cases hlock
    cases b with
    | completed s =>
      cases s
      · exact ⟨rfl, by constructor <;> (intro h; cases h)⟩
      · exact ⟨rfl, by constructor <;> (intro h; rfl)⟩
    | raisedExc =>
      exact ⟨rfl, by constructor <;> (intro h; cases h)⟩

/-- C9 witness: an execution whose body raises an unrecoverable exception
still ends with the lock artifact absent. -/
theorem lock_released_unconditionally_witness :
    (fillerWorkerRun (WorkerEnv.mk true false JobBody.raisedExc)).2 = false :=
  (lock_released_unconditionally (WorkerEnv.mk true false JobBody.raisedExc)
    (by decide) (by decide)).1

end GFormFiller
